import Mathlib

/-!
# Shallow embedding of the TomeRater catalog / rating engine

This file embeds the classes `Book`, `User` and `TomeRater` of
`src/TomeRater.py` as Lean definitions and proves properties of the
embedded operations.

Modelling conventions:

* Python dictionaries are modelled as insertion-ordered association lists
  (Python dicts preserve insertion order, which the analytics rely on).
* `User.books` is keyed by the book identity key `(title, isbn)` — the
  source's `Book.__hash__` / `Book.__eq__` — via `bookKeyEq`.  A Python
  dict assignment to an existing key keeps the originally stored key
  object and its position and only replaces the value; `dictInsert`
  mirrors that.
* Ratings are `Option Int` (`none` models Python `None`); the source's
  dynamically typed rating argument is restricted to this domain, which is
  the domain the program uses.
* Python exceptions (`ValueError`, the `ValueError` raised by `max()` on
  an empty sequence) are modelled with `Except String`; a normal return is
  `Except.ok`.  Printing to stdout is not modelled.
* Python `float` averages are modelled with `ℚ`; the numerators and
  denominators involved are small integers.
* The source relies on each identity key being carried by a single Book
  object (books are created once by the engine and then shared), so the
  in-place mutation performed by `Book.add_rating` is modelled by
  threading the updated book value through `User.read_book`.
-/

/-- The `Book` class hierarchy (`Book` / `Fiction` / `NonFiction`) as a
tagged variant: `Fiction` adds an author, `NonFiction` a subject and a
level.  The identity key and all rating behaviour live in `Book` and
ignore the variant data, exactly as in the source where the subclasses
only add accessors. -/
inductive BookKind where
  | plain : BookKind
  | fiction : String → BookKind
  | nonfiction : String → String → BookKind
deriving DecidableEq

/-- `Book.__init__`: title, isbn, price (default 0) and the accumulated
list of ratings, plus the variant tag. -/
structure Book where
  title : String
  isbn : Int
  price : Int
  ratings : List Int
  kind : BookKind
deriving DecidableEq

/-- `Book.__eq__` / `Book.__hash__`: two books are the same dictionary key
iff they agree on `(title, isbn)`.  Price, ratings and variant data are
not part of the identity key. -/
def bookKeyEq (a b : Book) : Bool :=
  a.title == b.title && a.isbn == b.isbn

/-- `Book.check_rating_is_valid`: `rating not in range(0, 5)` raises
`ValueError`.  `None` is not an element of `range(0, 5)`, so `none` is
invalid here (the caller `User.read_book` swallows that particular
failure).  The function returns `true` exactly when no exception is
raised. -/
def Book.check_rating_is_valid (rating : Option Int) : Bool :=
  match rating with
  | some r => decide (0 ≤ r ∧ r ≤ 4)
  | none => false

/-- `Book.add_rating`: appends the rating when valid, otherwise re-raises
the `ValueError` from `check_rating_is_valid`. -/
def Book.add_rating (b : Book) (rating : Int) : Except String Book :=
  if Book.check_rating_is_valid (some rating) then
    Except.ok { b with ratings := b.ratings ++ [rating] }
  else
    Except.error "Invalid rating"

/-- `Book.average_rating`: arithmetic mean of the ratings list, `0` when
the list is empty (`if len(self.ratings): ... return 0`).  `mkRat n d` is
the rational `n / d`, used so that the kernel can evaluate averages. -/
def Book.average_rating (b : Book) : ℚ :=
  if b.ratings.length ≠ 0 then mkRat b.ratings.sum b.ratings.length
  else 0

/-- `User.__init__`: name, email, and the dict mapping each book read to
the optional rating the user gave it. -/
structure User where
  name : String
  email : String
  books : List (Book × Option Int)
deriving DecidableEq

/-- Python dict assignment `d[k] = v` for the user's book dict: if a key
equal to `k` (book identity key) is present, its value is replaced in
place — the stored key object and its position are kept; otherwise the
pair is appended. -/
def dictInsert (k : Book) (v : Option Int) :
    List (Book × Option Int) → List (Book × Option Int)
  | [] => [(k, v)]
  | p :: rest => if bookKeyEq p.1 k then (p.1, v) :: rest else p :: dictInsert k v rest

/-- `User.read_book`: validates the rating first — an invalid rating that
is not `None` re-raises the `ValueError` before anything is recorded
(`None` is swallowed).  Then `self.books[book] = rating`, and only a
*truthy* rating (`if rating:`) is forwarded to `book.add_rating`; both
`None` and the integer `0` are falsy, so `0` is recorded on the user but
never forwarded.  The book value returned is the (possibly extended)
shared book object; the source's dict assignment stores a reference to
that same object, so the model inserts the post-forwarding value. -/
def User.read_book (u : User) (book : Book) (rating : Option Int) :
    Except String (User × Book) :=
  if ¬ Book.check_rating_is_valid rating ∧ rating ≠ none then
    Except.error "Invalid rating"
  else
    match rating with
    | some r =>
      if r ≠ 0 then
        match book.add_rating r with
        | Except.ok book2 =>
          Except.ok ({ u with books := dictInsert book2 rating u.books }, book2)
        | Except.error e => Except.error e
      else
        Except.ok ({ u with books := dictInsert book rating u.books }, book)
    | none => Except.ok ({ u with books := dictInsert book rating u.books }, book)

/-- `User.get_average_rating`: mean over the non-`None` ratings in the
user's dict, `0` when there are none. -/
def User.get_average_rating (u : User) : ℚ :=
  let rs := u.books.filterMap Prod.snd
  if rs.length ≠ 0 then mkRat rs.sum rs.length else 0

/-- The character class `[_a-z0-9-]` of the local part of the email
pattern. -/
def localChars : List Char := "_abcdefghijklmnopqrstuvwxyz0123456789-".toList

/-- The character class `[a-z0-9-]` of the domain part of the email
pattern. -/
def domainChars : List Char := "abcdefghijklmnopqrstuvwxyz0123456789-".toList

/-- The character class `[a-z]` of the TLD part of the email pattern. -/
def tldChars : List Char := "abcdefghijklmnopqrstuvwxyz".toList

/-- A regex character class `[c₁c₂…]` as a sum of single characters. -/
def charCls (cs : List Char) : RegularExpression Char :=
  cs.foldr (fun c r => RegularExpression.char c + r) 0

/-- `X+` (one or more). -/
def rePlus (r : RegularExpression Char) : RegularExpression Char := r * r.star

/-- `X+(\.X+)*` for a character class `X`: one or more nonempty segments
separated by single literal dots. -/
def dottedRe (cs : List Char) : RegularExpression Char :=
  rePlus (charCls cs) * (RegularExpression.char '.' * rePlus (charCls cs)).star

/-- `[a-z]{2,4}`: two mandatory letters followed by up to two more. -/
def tldRe : RegularExpression Char :=
  charCls tldChars * charCls tldChars * (1 + charCls tldChars) * (1 + charCls tldChars)

/-- The source pattern between the anchors:
`[_a-z0-9-]+(\.[_a-z0-9-]+)*@[a-z0-9-]+(\.[a-z0-9-]+)*(\.[a-z]{2,4})`. -/
def emailCoreRe : RegularExpression Char :=
  dottedRe localChars * RegularExpression.char '@' * dottedRe domainChars *
    (RegularExpression.char '.' * tldRe)

/-- The full anchored pattern.  In Python (without `re.MULTILINE`) the
trailing `$` also matches just before a single newline at the very end of
the string, hence the optional `'\n'`. -/
def emailRe : RegularExpression Char :=
  emailCoreRe * (1 + RegularExpression.char '\n')

/-- `User.check_email_is_valid`:
`re.match('^[_a-z0-9-]+(\.[_a-z0-9-]+)*@[a-z0-9-]+(\.[a-z0-9-]+)*(\.[a-z]{2,4})$', email)`
used as a boolean.  No `re.IGNORECASE` flag is passed. -/
def User.check_email_is_valid (email : String) : Bool :=
  emailRe.rmatch email.toList

/-- `TomeRater.__init__`: the engine owns the email→user dict and the
book→read-count dict. -/
structure TomeRater where
  users : List (String × User)
  books : List (Book × Nat)
deriving DecidableEq

/-- `TomeRater.check_isbn_in_catalog`: scans every catalog book comparing
`book.isbn == isbn` (the isbn alone, not the `(title, isbn)` key). -/
def TomeRater.check_isbn_in_catalog (s : TomeRater) (isbn : Int) : Bool :=
  s.books.any (fun p => p.1.isbn == isbn)

/-- `TomeRater.check_book_in_catalog`: membership of the book identity
key in the catalog dict. -/
def TomeRater.check_book_in_catalog (s : TomeRater) (book : Book) : Bool :=
  s.books.any (fun p => bookKeyEq p.1 book)

/-- `TomeRater.create_book`: returns a fresh `Book` unless a catalog book
already carries this isbn, in which case it returns `None`.  The method
never assigns to `self.books` or `self.users`, so the state is passed
through unchanged. -/
def TomeRater.create_book (s : TomeRater) (title : String) (isbn : Int) (price : Int) :
    Option Book × TomeRater :=
  (if s.check_isbn_in_catalog isbn then none
   else some { title := title, isbn := isbn, price := price, ratings := [],
               kind := BookKind.plain }, s)

/-- `TomeRater.create_novel`: as `create_book` but producing a `Fiction`. -/
def TomeRater.create_novel (s : TomeRater) (title author : String) (isbn : Int)
    (price : Int) : Option Book × TomeRater :=
  (if s.check_isbn_in_catalog isbn then none
   else some { title := title, isbn := isbn, price := price, ratings := [],
               kind := BookKind.fiction author }, s)

/-- `TomeRater.create_non_fiction`: as `create_book` but producing a
`NonFiction`. -/
def TomeRater.create_non_fiction (s : TomeRater) (title subject level : String)
    (isbn : Int) (price : Int) : Option Book × TomeRater :=
  (if s.check_isbn_in_catalog isbn then none
   else some { title := title, isbn := isbn, price := price, ratings := [],
               kind := BookKind.nonfiction subject level }, s)

/-- `TomeRater.is_existing_user`: raises `ValueError('Please enter a
valid email')` when the email fails the regex, otherwise tests membership
of the email among the registered users' keys. -/
def TomeRater.is_existing_user (s : TomeRater) (email : String) : Except String Bool :=
  if ¬ User.check_email_is_valid email then Except.error "Please enter a valid email"
  else Except.ok (s.users.any (fun p => p.1 == email))

/-- `TomeRater.add_book_to_user`: `is_existing_user` may raise (invalid
email).  For a registered user, delegates to `user.read_book` (the user
object in the dict is mutated in place — modelled by replacing the value
stored under that email), then increments the catalog read count for the
book's identity key, creating the entry at 1 when absent.  For a valid
but unknown email it only prints and returns (`Except.ok` with the state
unchanged). -/
def TomeRater.add_book_to_user (s : TomeRater) (book : Book) (email : String)
    (rating : Option Int) : Except String TomeRater :=
  if ¬ User.check_email_is_valid email then Except.error "Please enter a valid email"
  else
    match s.users.find? (fun p => p.1 == email) with
    | some (_, u) =>
      match u.read_book book rating with
      | Except.ok (u2, book2) =>
        Except.ok
          { users := s.users.map (fun p => if p.1 == email then (p.1, u2) else p)
            books :=
              if s.check_book_in_catalog book2 then
                s.books.map (fun p => if bookKeyEq p.1 book2 then (p.1, p.2 + 1) else p)
              else s.books ++ [(book2, 1)] }
      | Except.error e => Except.error e
    | none => Except.ok s

/-- `TomeRater.add_user`: raises on an invalid email; prints and performs
no mutation when the email is already registered; otherwise registers a
fresh user and, when an initial book list is given, feeds each book
through `add_book_to_user` with no rating. -/
def TomeRater.add_user (s : TomeRater) (name email : String)
    (user_books : Option (List Book)) : Except String TomeRater :=
  if ¬ User.check_email_is_valid email then Except.error "Please enter a valid email"
  else if s.users.any (fun p => p.1 == email) then Except.ok s
  else
    let s2 : TomeRater :=
      { s with users := s.users ++ [(email, { name := name, email := email, books := [] })] }
    match user_books with
    | some bs => bs.foldlM (fun st b => st.add_book_to_user b email none) s2
    | none => Except.ok s2

/-- `TomeRater.most_read_book`: CPython's `max` over the catalog keys
with the read count as key; it raises `ValueError('max() arg is an empty
sequence')` on an empty catalog, and otherwise keeps the first item whose
key is not strictly exceeded later (first-max). -/
def TomeRater.most_read_book (s : TomeRater) : Except String Book :=
  match s.books with
  | [] => Except.error "max() arg is an empty sequence"
  | p :: rest => Except.ok (rest.foldl (fun acc q => if acc.2 < q.2 then q else acc) p).1

/-- The sentinel `Book('reference_book', 1000002)` that
`highest_rated_book` starts its scan from. -/
def referenceBook : Book :=
  { title := "reference_book", isbn := 1000002, price := 0, ratings := [],
    kind := BookKind.plain }

/-- `TomeRater.highest_rated_book`: scans the catalog keeping the current
book only when its average rating is *strictly* greater than the
incumbent's, starting from the sentinel `referenceBook` (average 0). -/
def TomeRater.highest_rated_book (s : TomeRater) : Book :=
  s.books.foldl (fun acc p => if acc.average_rating < p.1.average_rating then p.1 else acc)
    referenceBook

/-- The sentinel `User('reference_user', 'mail@domain.com')` that
`most_positive_user` starts its scan from. -/
def referenceUser : User :=
  { name := "reference_user", email := "mail@domain.com", books := [] }

/-- `TomeRater.most_positive_user`: the same strict-improvement scan over
the users' average ratings, starting from the sentinel `referenceUser`. -/
def TomeRater.most_positive_user (s : TomeRater) : User :=
  s.users.foldl
    (fun acc p => if acc.get_average_rating < p.2.get_average_rating then p.2 else acc)
    referenceUser

/-- One insertion step of a stable sort by read count descending: the new
element goes in front of the first element whose count does not exceed
it, so among equal counts the earlier element of the original list stays
first. -/
def insertByCountDesc (x : Book × Nat) : List (Book × Nat) → List (Book × Nat)
  | [] => [x]
  | y :: ys => if y.2 ≤ x.2 then x :: y :: ys else y :: insertByCountDesc x ys

/-- `list.sort(key=lambda tup: tup[1], reverse=True)`: Python's sort is
stable and `reverse=True` flips the comparison without disturbing the
order of equal keys; modelled as a stable insertion sort. -/
def sortByCountDesc (l : List (Book × Nat)) : List (Book × Nat) :=
  l.foldr insertByCountDesc []

/-- `TomeRater.get_n_most_read_books`: sort the `(book, count)` items by
count descending (stable) and take the first `n`. -/
def TomeRater.get_n_most_read_books (s : TomeRater) (n : Nat) : List (Book × Nat) :=
  (sortByCountDesc s.books).take n

/-- Python dict lookup `user.books.get(book-key)` by identity key:
`some r` when the book is recorded with rating `r`, `none` when absent. -/
def dictLookup (b : Book) (l : List (Book × Option Int)) : Option (Option Int) :=
  (l.find? (fun p => bookKeyEq p.1 b)).map Prod.snd

/-- The catalog read count stored for a book's identity key, read as `0`
when the book is absent. -/
def countOf (b : Book) (l : List (Book × Nat)) : Nat :=
  ((l.find? (fun p => bookKeyEq p.1 b)).map Prod.snd).getD 0

/-- Join parts with a single `sep` between consecutive parts. -/
def joinSep (sep : Char) : List (List Char) → List Char
  | [] => []
  | [p] => p
  | p :: ps => p ++ sep :: joinSep sep (ps)

/-- Modelled from the spec: `∀ c ∈ x, c ∈ cs` — every character of a
segment drawn from the class `cs`. -/
def allIn (cs : List Char) (x : List Char) : Prop := ∀ c ∈ x, c ∈ cs

/-- Modelled from the spec: the structural description of an accepted
address — a nonempty list of nonempty `[_a-z0-9-]` segments joined by
dots, `'@'`, a nonempty list of nonempty `[a-z0-9-]` segments joined by
dots, a final dot and a 2–4 letter TLD. -/
def emailSpecStructure (x : List Char) : Prop :=
  ∃ (lsegs dsegs : List (List Char)) (tld : List Char),
    lsegs ≠ [] ∧ (∀ p ∈ lsegs, p ≠ [] ∧ allIn localChars p) ∧
    dsegs ≠ [] ∧ (∀ p ∈ dsegs, p ≠ [] ∧ allIn domainChars p) ∧
    2 ≤ tld.length ∧ tld.length ≤ 4 ∧ allIn tldChars tld ∧
    x = joinSep '.' lsegs ++ '@' :: (joinSep '.' dsegs ++ '.' :: tld)

/-- Modelled from the spec: the first catalog book whose average rating
is maximal (ties resolved in favour of the earlier book in catalog
iteration order). -/
def specFirstHighest (l : List Book) : Option Book :=
  l.find? (fun b => l.all (fun c => decide (c.average_rating ≤ b.average_rating)))

deriving instance DecidableEq for Except

/-- A sample plain book (the spec's scenario book). -/
def dune : Book :=
  { title := "Dune", isbn := 1001, price := 20, ratings := [], kind := BookKind.plain }

/-- A sample book carrying one rating of 4. -/
def hobbit : Book :=
  { title := "The Hobbit", isbn := 1002, price := 10, ratings := [4], kind := BookKind.plain }

/-- A sample user who has read `dune` without rating it. -/
def alice : User :=
  { name := "Alice", email := "alice@mail.com", books := [(dune, none)] }

/-- `bookKeyEq` is reflexive: a book always equals its own identity key. -/
theorem bookKeyEq_refl (b : Book) : bookKeyEq b b = true := by
  simp [bookKeyEq]

/-- Looking up the key just written by `dictInsert` yields the new value. -/
theorem dictLookup_dictInsert_self (k : Book) (v : Option Int)
    (l : List (Book × Option Int)) : dictLookup k (dictInsert k v l) = some v := by
  induction l with
  | nil => simp [dictInsert, dictLookup, bookKeyEq_refl]
  | cons p rest ih =>
    by_cases h : bookKeyEq p.1 k
    · simp [dictInsert, h, dictLookup, List.find?]
    · simp only [dictInsert, h, if_false, Bool.false_eq_true]
      simpa [dictLookup, List.find?, h] using ih

/-- C1: for every user `u`, book `b` and rating that is an integer outside
`[0, 4]` (hence neither `None` nor a valid rating), `read_book` raises
`ValueError('Invalid rating')`.  In this embedding mutation only happens
through a returned `Except.ok` value, so the error return is exactly "the
read is not recorded and the book's ratings are untouched". -/
theorem readBook_invalid_rating_raises (u : User) (b : Book) (r : Int)
    (h : ¬ (0 ≤ r ∧ r ≤ 4)) :
    u.read_book b (some r) = Except.error "Invalid rating" := by
  have hc : Book.check_rating_is_valid (some r) = false := by
    simp [Book.check_rating_is_valid, h]
  unfold User.read_book
  rw [if_pos ⟨by simp [hc], by simp⟩]

/-- Witness for C1 at the rating 5. -/
theorem readBook_invalid_rating_raises_witness :
    ¬ ((0:Int) ≤ 5 ∧ (5:Int) ≤ 4) ∧
      alice.read_book dune (some 5) = Except.error "Invalid rating" :=
  ⟨by decide, readBook_invalid_rating_raises alice dune 5 (by decide)⟩

/-- The value just written by `dictInsert` shows up among the dict's
stored values. -/
theorem dictInsert_snd_mem (k : Book) (v : Option Int) (l : List (Book × Option Int)) :
    v ∈ (dictInsert k v l).map Prod.snd := by
  induction l with
  | nil => simp [dictInsert]
  | cons p rest ih =>
    by_cases h : bookKeyEq p.1 k
    · simp [dictInsert, h]
    · have hstep : dictInsert k v (p :: rest) = p :: dictInsert k v rest := by
        simp [dictInsert, h]
      rw [hstep, List.map_cons]
      exact List.mem_cons_of_mem _ ih

/-- C4: reading a book with the rating 0 succeeds, records `b ↦ 0` in the
user's dict (so 0 enters the pool `get_average_rating` averages over) and
returns the book unchanged: the falsy rating 0 is never forwarded to
`Book.add_rating`. -/
theorem readBook_zero_recorded_not_forwarded (u : User) (b : Book) :
    ∃ u' : User, u.read_book b (some 0) = Except.ok (u', b) ∧
      dictLookup b u'.books = some (some 0) ∧
      (0 : Int) ∈ u'.books.filterMap Prod.snd := by
  refine ⟨{ u with books := dictInsert b (some 0) u.books }, ?_, ?_, ?_⟩
  · unfold User.read_book
    rw [if_neg (by simp [Book.check_rating_is_valid])]
    simp
  · exact dictLookup_dictInsert_self b (some 0) u.books
  · have hmem : some (0:Int) ∈ (dictInsert b (some 0) u.books).map Prod.snd :=
      dictInsert_snd_mem b (some 0) u.books
    rcases List.mem_map.mp hmem with ⟨pair, hpair, h2⟩
    exact List.mem_filterMap.mpr ⟨pair, hpair, h2⟩

/-- C5: when some catalog book already carries the requested isbn, each
of the three creation methods returns no new entity and passes the state
through unchanged — regardless of the requested title (the duplicate
check scans isbn alone, not the `(title, isbn)` key). -/
theorem create_duplicate_isbn_noop (s : TomeRater) (title author subject level : String)
    (isbn price : Int)
    (h : ∃ b ∈ s.books.map Prod.fst, b.isbn = isbn) :
    s.create_book title isbn price = (none, s) ∧
    s.create_novel title author isbn price = (none, s) ∧
    s.create_non_fiction title subject level isbn price = (none, s) := by
  have hc : s.check_isbn_in_catalog isbn = true := by
    rcases h with ⟨b, hb, hisbn⟩
    rcases List.mem_map.mp hb with ⟨p, hp, rfl⟩
    exact List.any_eq_true.mpr ⟨p, hp, by simp [hisbn]⟩
  simp [TomeRater.create_book, TomeRater.create_novel,
    TomeRater.create_non_fiction, hc]

/-- Witness for C5: a catalog holding `dune` (isbn 1001) rejects fresh
books with isbn 1001 even under different titles. -/
theorem create_duplicate_isbn_noop_witness :
    (∃ b ∈ (TomeRater.mk [] [(dune, 1)]).books.map Prod.fst, b.isbn = 1001) ∧
      (TomeRater.mk [] [(dune, 1)]).create_book "Not Dune" 1001 5 =
        (none, TomeRater.mk [] [(dune, 1)]) :=
  ⟨⟨dune, by decide, by decide⟩,
    (create_duplicate_isbn_noop (TomeRater.mk [] [(dune, 1)]) "Not Dune" "a" "s" "l"
      1001 5 ⟨dune, by decide, by decide⟩).1⟩

/-- C9: on an empty catalog `most_read_book` raises (Python `max` on an
empty sequence), while `highest_rated_book` falls back to the sentinel
`referenceBook` and `most_positive_user` (on an engine with no users)
falls back to the sentinel `referenceUser` instead of raising. -/
theorem mostReadBook_empty_raises (us : List (String × User)) :
    (TomeRater.mk us []).most_read_book =
        Except.error "max() arg is an empty sequence" ∧
      (TomeRater.mk us []).highest_rated_book = referenceBook ∧
      (TomeRater.mk [] []).most_positive_user = referenceUser :=
  ⟨rfl, rfl, rfl⟩

/-- The strict-improvement scan used by `highest_rated_book` (and
`most_positive_user`), characterised: the result dominates the seed and
every scanned element, and it is either the seed itself or the first
element attaining the final value, every element before it being
strictly smaller. -/
theorem foldl_firstMax {α : Type} (f : α → ℚ) :
    ∀ (l : List α) (a : α),
      f a ≤ f (l.foldl (fun acc b => if f acc < f b then b else acc) a) ∧
      (∀ b ∈ l, f b ≤ f (l.foldl (fun acc b => if f acc < f b then b else acc) a)) ∧
      (l.foldl (fun acc b => if f acc < f b then b else acc) a = a ∨
        (f a < f (l.foldl (fun acc b => if f acc < f b then b else acc) a) ∧
          ∃ l1 l2,
            l = l1 ++ (l.foldl (fun acc b => if f acc < f b then b else acc) a) :: l2 ∧
            ∀ c ∈ l1,
              f c < f (l.foldl (fun acc b => if f acc < f b then b else acc) a)))
  | [], a => by simp
  | b :: t, a => by
    by_cases h : f a < f b
    · obtain ⟨ih1, ih2, ih3⟩ := foldl_firstMax f t b
      simp only [List.foldl_cons]
      rw [if_pos h]
      generalize hR : t.foldl (fun acc b => if f acc < f b then b else acc) b = r
        at ih1 ih2 ih3 ⊢
      refine ⟨le_trans (le_of_lt h) ih1, ?_, ?_⟩
      · intro c hc
        rcases List.mem_cons.mp hc with rfl | hc
        · exact ih1
        · exact ih2 c hc
      · right
        rcases ih3 with heq | ⟨hlt, l1, l2, hsplit, hpre⟩
        · subst heq
          exact ⟨h, [], t, rfl, by intro c hc; simp at hc⟩
        · refine ⟨lt_trans h hlt, b :: l1, l2, by rw [hsplit]; rfl, ?_⟩
          intro c hc
          rcases List.mem_cons.mp hc with rfl | hc
          · exact hlt
          · exact hpre c hc
    · obtain ⟨ih1, ih2, ih3⟩ := foldl_firstMax f t a
      simp only [List.foldl_cons]
      rw [if_neg h]
      generalize hR : t.foldl (fun acc b => if f acc < f b then b else acc) a = r
        at ih1 ih2 ih3 ⊢
      refine ⟨ih1, ?_, ?_⟩
      · intro c hc
        rcases List.mem_cons.mp hc with rfl | hc
        · exact le_trans (le_of_not_lt h) ih1
        · exact ih2 c hc
      · rcases ih3 with heq | ⟨hlt, l1, l2, hsplit, hpre⟩
        · exact Or.inl heq
        · refine Or.inr ⟨hlt, b :: l1, l2, by rw [hsplit]; rfl, ?_⟩
          intro c hc
          rcases List.mem_cons.mp hc with rfl | hc
          · exact lt_of_le_of_lt (le_of_not_lt h) hlt
          · exact hpre c hc

/-- `find?` returns the middle element when everything before it fails
the predicate and it passes. -/
theorem find?_middle {α : Type} (p : α → Bool) (l1 l2 : List α) (x : α)
    (h1 : ∀ c ∈ l1, ¬ p c = true) (hx : p x = true) :
    List.find? p (l1 ++ x :: l2) = some x := by
  induction l1 with
  | nil => simp [List.find?_cons_of_pos, hx]
  | cons c t ih =>
    rw [List.cons_append, List.find?_cons_of_neg _ (h1 c (by simp))]
    exact ih fun d hd => h1 d (by simp [hd])

/-- C2 (amended): when some catalog book has a strictly positive average
rating, `highest_rated_book` returns the first catalog book attaining the
maximal average (`specFirstHighest`); when every catalog book has average
rating ≤ 0 — the empty catalog, but also any non-empty catalog of
unrated or all-zero-rated books — it returns the sentinel
`referenceBook` instead, because the scan only replaces the incumbent on
a *strict* improvement over the sentinel's average 0. -/
theorem highestRatedBook_firstMax (s : TomeRater) :
    ((∃ b ∈ s.books.map Prod.fst, 0 < b.average_rating) →
      specFirstHighest (s.books.map Prod.fst) = some s.highest_rated_book) ∧
    ((∀ b ∈ s.books.map Prod.fst, b.average_rating ≤ 0) →
      s.highest_rated_book = referenceBook) := by
  have hfold : (s.books.map Prod.fst).foldl
      (fun acc b => if acc.average_rating < b.average_rating then b else acc)
      referenceBook = s.highest_rated_book := by
    rw [List.foldl_map]; rfl
  have href : referenceBook.average_rating = 0 := rfl
  obtain ⟨h1, h2, h3⟩ :=
    foldl_firstMax Book.average_rating (s.books.map Prod.fst) referenceBook
  rw [hfold] at h1 h2 h3
  constructor
  · rintro ⟨b, hb, hpos⟩
    have hrpos : 0 < s.highest_rated_book.average_rating :=
      lt_of_lt_of_le hpos (h2 b hb)
    rcases h3 with heq | ⟨hlt, l1, l2, hsplit, hpre⟩
    · rw [heq, href] at hrpos
      exact absurd hrpos (lt_irrefl 0)
    · unfold specFirstHighest
      rw [hsplit]
      refine find?_middle _ l1 l2 _ ?_ ?_
      · intro c hc hall
        have hcr : s.highest_rated_book.average_rating ≤ c.average_rating := by
          have := List.all_eq_true.mp hall s.highest_rated_book
            (List.mem_append_right l1 (List.mem_cons_self _ _))
          simpa using this
        exact absurd (lt_of_lt_of_le (hpre c hc) hcr)
          (lt_irrefl c.average_rating)
      · refine List.all_eq_true.mpr ?_
        intro d hd
        have hd' : d ∈ s.books.map Prod.fst := by rw [hsplit]; exact hd
        simpa using h2 d hd'
  · intro hall
    rcases h3 with heq | ⟨hlt, l1, l2, hsplit, _⟩
    · exact heq
    · have hrmem : s.highest_rated_book ∈ s.books.map Prod.fst := by
        rw [hsplit]
        exact List.mem_append_right l1 (List.mem_cons_self _ _)
      have := hall _ hrmem
      rw [href] at hlt
      exact absurd (lt_of_lt_of_le hlt this) (lt_irrefl 0)

/-- Counterexample to C2 as stated: the catalog containing only the
unrated `dune` (average rating 0) is non-empty, yet `highest_rated_book`
returns the sentinel `referenceBook`, which is not a catalog entry. -/
theorem highestRatedBook_unrated_counterexample :
    (TomeRater.mk [] [(dune, 1)]).highest_rated_book = referenceBook ∧
      referenceBook ∉ (TomeRater.mk [] [(dune, 1)]).books.map Prod.fst := by
  decide

/-- Witness for the amended C2 at two concrete catalogs: one where a
positive-average book exists (the first-max catalog book is returned,
not the sentinel) and one of unrated books only (the sentinel is
returned). -/
theorem highestRatedBook_firstMax_witness :
    specFirstHighest ((TomeRater.mk [] [(dune, 1), (hobbit, 1)]).books.map Prod.fst) =
        some (TomeRater.mk [] [(dune, 1), (hobbit, 1)]).highest_rated_book ∧
      (TomeRater.mk [] [(dune, 2)]).highest_rated_book = referenceBook :=
  ⟨(highestRatedBook_firstMax _).1 ⟨hobbit, by decide, by decide⟩,
    (highestRatedBook_firstMax _).2 (by decide)⟩

/-- Membership in an insertion step. -/
theorem mem_insertByCountDesc (x z : Book × Nat) (l : List (Book × Nat)) :
    z ∈ insertByCountDesc x l ↔ z = x ∨ z ∈ l := by
  induction l with
  | nil => simp [insertByCountDesc]
  | cons y ys ih =>
    by_cases h : y.2 ≤ x.2
    · simp [insertByCountDesc, h]
    · simp [insertByCountDesc, h, ih]
      tauto

/-- Each insertion step grows the list by one element. -/
theorem length_insertByCountDesc (x : Book × Nat) (l : List (Book × Nat)) :
    (insertByCountDesc x l).length = l.length + 1 := by
  induction l with
  | nil => simp [insertByCountDesc]
  | cons y ys ih =>
    by_cases h : y.2 ≤ x.2 <;> simp [insertByCountDesc, h, ih]

/-- An insertion step preserves the descending-by-count order. -/
theorem pairwise_insertByCountDesc (x : Book × Nat) (l : List (Book × Nat))
    (hl : l.Pairwise (fun a b => b.2 ≤ a.2)) :
    (insertByCountDesc x l).Pairwise (fun a b => b.2 ≤ a.2) := by
  induction l with
  | nil => simp [insertByCountDesc]
  | cons y ys ih =>
    rcases List.pairwise_cons.mp hl with ⟨hy, hys⟩
    by_cases h : y.2 ≤ x.2
    · rw [insertByCountDesc, if_pos h]
      refine List.pairwise_cons.mpr ⟨?_, hl⟩
      intro z hz
      rcases List.mem_cons.mp hz with rfl | hz
      · exact h
      · exact le_trans (hy z hz) h
    · rw [insertByCountDesc, if_neg h]
      refine List.pairwise_cons.mpr ⟨?_, ih hys⟩
      intro z hz
      rcases (mem_insertByCountDesc x z ys).mp hz with rfl | hz
      · exact le_of_lt (lt_of_not_le h)
      · exact hy z hz

/-- Stability of one insertion step, phrased through `filter`: among the
entries with a fixed count `c`, the inserted element (if it has count
`c`) lands in front of all of them and no other relative order changes. -/
theorem filter_insertByCountDesc (c : Nat) (x : Book × Nat) (l : List (Book × Nat)) :
    (insertByCountDesc x l).filter (fun p => p.2 == c) =
      if x.2 == c then x :: l.filter (fun p => p.2 == c)
      else l.filter (fun p => p.2 == c) := by
  induction l with
  | nil =>
    by_cases hx : x.2 == c <;> simp [insertByCountDesc, List.filter, hx]
  | cons y ys ih =>
    by_cases h : y.2 ≤ x.2
    · by_cases hx : x.2 == c <;>
        simp [insertByCountDesc, h, List.filter_cons, hx]
    · by_cases hy : (y.2 == c) = true
      · by_cases hx : (x.2 == c) = true
        · exfalso
          simp only [beq_iff_eq] at hx hy
          exact h (le_of_eq (hy.trans hx.symm))
        · simp [insertByCountDesc, h, List.filter_cons, hy, hx, ih]
      · simp [insertByCountDesc, h, List.filter_cons, hy, ih]

/-- The stable sort keeps the length of the list. -/
theorem length_sortByCountDesc (l : List (Book × Nat)) :
    (sortByCountDesc l).length = l.length := by
  induction l with
  | nil => rfl
  | cons a t ih =>
    show (insertByCountDesc a (sortByCountDesc t)).length = t.length + 1
    rw [length_insertByCountDesc, ih]

/-- The stable sort produces a descending-by-count list. -/
theorem pairwise_sortByCountDesc (l : List (Book × Nat)) :
    (sortByCountDesc l).Pairwise (fun a b => b.2 ≤ a.2) := by
  induction l with
  | nil => simp [sortByCountDesc]
  | cons a t ih => exact pairwise_insertByCountDesc a (sortByCountDesc t) ih

/-- Stability of the sort: for each count value the entries carrying that
count appear in the sorted list exactly in their original order. -/
theorem filter_sortByCountDesc (c : Nat) (l : List (Book × Nat)) :
    (sortByCountDesc l).filter (fun p => p.2 == c) = l.filter (fun p => p.2 == c) := by
  induction l with
  | nil => rfl
  | cons a t ih =>
    show (insertByCountDesc a (sortByCountDesc t)).filter (fun p => p.2 == c) = _
    rw [filter_insertByCountDesc, ih, List.filter_cons]

/-- C8: `get_n_most_read_books n` returns `min n (catalog size)` pairs,
sorted by read count descending, and for every count value the returned
pairs carrying that count form a prefix of the catalog's pairs with that
count in their original (insertion) order — i.e. ties are stable. -/
theorem getNMostReadBooks_sorted_stable (s : TomeRater) (n : Nat) :
    (s.get_n_most_read_books n).length = min n s.books.length ∧
    (s.get_n_most_read_books n).Pairwise (fun a b => b.2 ≤ a.2) ∧
    ∀ c : Nat, ∃ rest,
      (s.get_n_most_read_books n).filter (fun p => p.2 == c) ++ rest =
        s.books.filter (fun p => p.2 == c) := by
  refine ⟨?_, ?_, ?_⟩
  · unfold TomeRater.get_n_most_read_books
    rw [List.length_take, length_sortByCountDesc]
  · exact List.Pairwise.sublist (List.take_sublist _ _) (pairwise_sortByCountDesc _)
  · intro c
    refine ⟨(List.drop n (sortByCountDesc s.books)).filter (fun p => p.2 == c), ?_⟩
    unfold TomeRater.get_n_most_read_books
    rw [← List.filter_append, List.take_append_drop, filter_sortByCountDesc]

/-- Counterexample to C3 as stated: `"not-an-email"` is an email under
which no user is registered (the engine is empty), yet
`add_book_to_user` *raises* `ValueError('Please enter a valid email')`
(via `is_existing_user`) instead of reporting softly and returning. -/
theorem addBookToUser_invalid_email_counterexample :
    (TomeRater.mk [] []).add_book_to_user dune "not-an-email" none =
      Except.error "Please enter a valid email" := by
  have hv : User.check_email_is_valid "not-an-email" = false := by decide
  unfold TomeRater.add_book_to_user
  rw [if_pos (by simp [hv])]

/-- C3 (amended): for every engine state and every *syntactically valid*
email under which no user is registered, `add_book_to_user` reports the
missing user without raising and returns the engine state unchanged
(users and books untouched).  For a syntactically invalid email the call
raises instead. -/
theorem addBookToUser_unknown_email_reports (s : TomeRater) (b : Book) (e : String)
    (r : Option Int) (hv : User.check_email_is_valid e = true)
    (hnone : s.users.find? (fun p => p.1 == e) = none) :
    s.add_book_to_user b e r = Except.ok s := by
  unfold TomeRater.add_book_to_user
  rw [if_neg (not_not_intro hv), hnone]

/-- Witness for the amended C3: a valid, unregistered email on the empty
engine is reported softly with the state unchanged. -/
theorem addBookToUser_unknown_email_reports_witness :
    User.check_email_is_valid "bob@mail.com" = true ∧
      (TomeRater.mk [] []).users.find? (fun p => p.1 == "bob@mail.com") = none ∧
      (TomeRater.mk [] []).add_book_to_user dune "bob@mail.com" none =
        Except.ok (TomeRater.mk [] []) :=
  ⟨by decide, rfl,
    addBookToUser_unknown_email_reports (TomeRater.mk [] []) dune "bob@mail.com" none
      (by decide) rfl⟩

/-- Replacing the user value stored under an email key leaves the list of
email keys untouched. -/
theorem map_fst_update_user (l : List (String × User)) (e : String) (u2 : User) :
    (l.map (fun p => if p.1 == e then (p.1, u2) else p)).map Prod.fst =
      l.map Prod.fst := by
  rw [List.map_map]
  apply List.map_congr_left
  intro p _
  by_cases hc : p.1 == e <;> simp [hc, Function.comp]

/-- A successful `add_book_to_user` never changes the registered email
keys (nor their order): it only replaces the user value stored under the
given email and touches the catalog. -/
theorem addBookToUser_users_keys (s s' : TomeRater) (b : Book) (e : String)
    (r : Option Int) (h : s.add_book_to_user b e r = Except.ok s') :
    s'.users.map Prod.fst = s.users.map Prod.fst := by
  unfold TomeRater.add_book_to_user at h
  by_cases hv : User.check_email_is_valid e = true
  · rw [if_neg (not_not_intro hv)] at h
    split at h
    · split at h
      · cases h
        exact map_fst_update_user s.users e _
      · cases h
    · cases h
      rfl
  · rw [if_pos hv] at h
    cases h

/-- Feeding a whole list of books through `add_book_to_user` preserves
the registered email keys. -/
theorem foldlM_addBook_users_keys (e : String) :
    ∀ (bs : List Book) (s s' : TomeRater),
      bs.foldlM (fun st b => st.add_book_to_user b e none) s = Except.ok s' →
      s'.users.map Prod.fst = s.users.map Prod.fst
  | [], s, s', h => by
    simp only [List.foldlM_nil] at h
    cases h
    rfl
  | b :: bs, s, s', h => by
    rw [List.foldlM_cons] at h
    rcases hstep : s.add_book_to_user b e none with err | s1
    · rw [hstep] at h
      simp [Bind.bind, Except.bind] at h
    · rw [hstep] at h
      simp only [Bind.bind, Except.bind] at h
      exact (foldlM_addBook_users_keys e bs s1 s' h).trans
        (addBookToUser_users_keys s s1 b e none hstep)

/-- C6: starting from a state with no user under the email `e`, a first
successful `add_user` followed by a second `add_user` with the same email
leaves exactly the state produced by the first call (the duplicate is
reported, nothing is mutated), with exactly one user registered under
`e`. -/
theorem addUser_duplicate_email_noop (s0 s1 : TomeRater) (n1 n2 e : String)
    (bs1 bs2 : Option (List Book))
    (hfresh : s0.users.any (fun p => p.1 == e) = false)
    (hfirst : s0.add_user n1 e bs1 = Except.ok s1) :
    s1.add_user n2 e bs2 = Except.ok s1 ∧
      s1.users.countP (fun p => p.1 == e) = 1 := by
  by_cases hv : User.check_email_is_valid e = true
  case neg =>
    unfold TomeRater.add_user at hfirst
    rw [if_pos hv] at hfirst
    cases hfirst
  case pos =>
  have hkeys : s1.users.map Prod.fst = s0.users.map Prod.fst ++ [e] := by
    unfold TomeRater.add_user at hfirst
    rw [if_neg (not_not_intro hv), if_neg (by simp [hfresh])] at hfirst
    rcases bs1 with _ | bs
    · cases hfirst
      simp
    · have hinv := foldlM_addBook_users_keys e bs _ s1 hfirst
      rw [hinv]
      simp
  have hmem : e ∈ s1.users.map Prod.fst := by
    rw [hkeys]
    exact List.mem_append_right _ (List.mem_singleton.mpr rfl)
  constructor
  · have hany : s1.users.any (fun p => p.1 == e) = true := by
      rcases List.mem_map.mp hmem with ⟨p, hp, hpe⟩
      exact List.any_eq_true.mpr ⟨p, hp, by simp [hpe]⟩
    unfold TomeRater.add_user
    rw [if_neg (not_not_intro hv), if_pos hany]
  · have hcount : s1.users.countP (fun p => p.1 == e) =
        (s1.users.map Prod.fst).countP (fun x => x == e) := by
      rw [List.countP_map]
      rfl
    have h0 : (s0.users.map Prod.fst).countP (fun x => x == e) = 0 := by
      rw [List.countP_eq_zero]
      intro a ha
      rcases List.mem_map.mp ha with ⟨p, hp, rfl⟩
      simpa using List.any_eq_false.mp hfresh p hp
    rw [hcount, hkeys, List.countP_append, h0]
    simp

/-- Witness for C6: registering Alice twice under the same email on the
empty engine keeps exactly the state of the first registration. -/
theorem addUser_duplicate_email_noop_witness :
    (TomeRater.mk
          [("alice@mail.com", User.mk "Alice" "alice@mail.com" [])] []).add_user
        "Bob" "alice@mail.com" none =
      Except.ok (TomeRater.mk
        [("alice@mail.com", User.mk "Alice" "alice@mail.com" [])] []) ∧
    (TomeRater.mk
        [("alice@mail.com", User.mk "Alice" "alice@mail.com" [])] []).users.countP
      (fun p => p.1 == "alice@mail.com") = 1 :=
  addUser_duplicate_email_noop (TomeRater.mk [] []) _ "Alice" "Bob" "alice@mail.com"
    none none rfl (by decide)

/-- Overwriting an existing key with `dictInsert` keeps the dict size. -/
theorem dictInsert_existing_length (k : Book) (v : Option Int) :
    ∀ l : List (Book × Option Int), (∃ p ∈ l, bookKeyEq p.1 k = true) →
      (dictInsert k v l).length = l.length
  | [], h => by
    rcases h with ⟨p, hp, _⟩
    simp at hp
  | p :: rest, h => by
    by_cases hk : bookKeyEq p.1 k
    · simp [dictInsert, hk]
    · have hrest : ∃ q ∈ rest, bookKeyEq q.1 k = true := by
        rcases h with ⟨q, hq, hqk⟩
        rcases List.mem_cons.mp hq with rfl | hq
        · exact absurd hqk hk
        · exact ⟨q, hq, hqk⟩
      simp [dictInsert, hk, dictInsert_existing_length k v rest hrest]

/-- After replacing the user value stored under `e`, looking up `e`
returns the new value. -/
theorem find?_map_update (l : List (String × User)) (e : String) (u u2 : User)
    (h : l.find? (fun p => p.1 == e) = some (e, u)) :
    (l.map (fun p => if p.1 == e then (p.1, u2) else p)).find? (fun p => p.1 == e) =
      some (e, u2) := by
  induction l with
  | nil => simp at h
  | cons p rest ih =>
    by_cases hc : (p.1 == e) = true
    · simp only [List.find?_cons, hc] at h
      rw [Option.some_inj] at h
      subst h
      simp only [List.map_cons, if_pos hc]
      simp [List.find?_cons]
    · have hc' : (p.1 == e) = false := by simpa using hc
      simp only [List.find?_cons, hc'] at h
      have ihh := ih h
      simp only [List.map_cons, List.find?_cons, hc', Bool.false_eq_true, if_false]
      exact ihh

/-- Incrementing the stored count of a present key raises `countOf` by
exactly one. -/
theorem countOf_map_incr (b : Book) :
    ∀ l : List (Book × Nat), l.any (fun p => bookKeyEq p.1 b) = true →
      countOf b (l.map (fun p => if bookKeyEq p.1 b then (p.1, p.2 + 1) else p)) =
        countOf b l + 1
  | [], h => by simp at h
  | p :: rest, h => by
    by_cases hk : (bookKeyEq p.1 b) = true
    · unfold countOf
      simp only [List.map_cons, if_pos hk]
      simp [List.find?_cons, hk]
    · have hk' : (bookKeyEq p.1 b) = false := by simpa using hk
      have hrest : rest.any (fun p => bookKeyEq p.1 b) = true := by
        rcases List.any_eq_true.mp h with ⟨q, hq, hqk⟩
        rcases List.mem_cons.mp hq with rfl | hq
        · exact absurd hqk hk
        · exact List.any_eq_true.mpr ⟨q, hq, hqk⟩
      have ihr := countOf_map_incr b rest hrest
      simp only [countOf, List.map_cons, List.find?_cons, hk', Bool.false_eq_true,
        if_false] at ihr ⊢
      exact ihr

/-- Appending a fresh entry `(b2, 1)` for an absent key `b` (with
`bookKeyEq b2 b`) takes `countOf` from 0 to 1. -/
theorem countOf_append_new (b b2 : Book) (l : List (Book × Nat))
    (hab : l.any (fun p => bookKeyEq p.1 b) = false) (hkey : bookKeyEq b2 b = true) :
    countOf b (l ++ [(b2, 1)]) = countOf b l + 1 := by
  have hnone : l.find? (fun p => bookKeyEq p.1 b) = none := by
    rw [List.find?_eq_none]
    intro p hp
    simp [List.any_eq_false.mp hab p hp]
  have hfound : (l ++ [(b2, 1)]).find? (fun p => bookKeyEq p.1 b) = some (b2, 1) :=
    find?_middle _ l [] (b2, 1)
      (fun c hc => by simp [List.any_eq_false.mp hab c hc]) hkey
  unfold countOf
  rw [hnone, hfound]
  rfl

/-- C10: when a registered user `u` (under a valid email `e`) has already
read `b`, a further successful `add_book_to_user b e` (no rating) leaves
the size of `u`'s book dict unchanged — the entry for `b` is overwritten
with the fresh rating `None` — while the catalog read count stored for
`b` still climbs by one.  `books[b]` therefore counts read *events* and
can exceed the number of distinct users who have read `b` (see the
witness: one user, final count 2). -/
theorem addBookToUser_reread_counts_events (s : TomeRater) (e : String) (u : User)
    (b : Book) (hv : User.check_email_is_valid e = true)
    (hfind : s.users.find? (fun p => p.1 == e) = some (e, u))
    (hread : ∃ p ∈ u.books, bookKeyEq p.1 b = true) :
    ∃ s' u', s.add_book_to_user b e none = Except.ok s' ∧
      s'.users.find? (fun p => p.1 == e) = some (e, u') ∧
      u'.books.length = u.books.length ∧
      dictLookup b u'.books = some none ∧
      countOf b s'.books = countOf b s.books + 1 := by
  have hrb : u.read_book b none =
      Except.ok ({ u with books := dictInsert b none u.books }, b) := by
    unfold User.read_book
    rw [if_neg (by simp)]
  refine ⟨⟨s.users.map (fun p => if p.1 == e then
      (p.1, { u with books := dictInsert b none u.books }) else p),
    if s.check_book_in_catalog b then
      s.books.map (fun p => if bookKeyEq p.1 b then (p.1, p.2 + 1) else p)
    else s.books ++ [(b, 1)]⟩,
    { u with books := dictInsert b none u.books }, ?_, ?_, ?_, ?_, ?_⟩
  · unfold TomeRater.add_book_to_user
    rw [if_neg (not_not_intro hv)]
    simp only [hfind, hrb]
  · exact find?_map_update s.users e u _ hfind
  · exact dictInsert_existing_length b none u.books hread
  · exact dictLookup_dictInsert_self b none u.books
  · by_cases hcat : s.check_book_in_catalog b = true
    · rw [if_pos hcat]
      exact countOf_map_incr b s.books hcat
    · rw [if_neg hcat]
      exact countOf_append_new b b s.books (by simpa [TomeRater.check_book_in_catalog]
        using hcat) (bookKeyEq_refl b)

/-- Witness for C10: Alice has already read `dune` (catalog count 1);
adding it to her again keeps her collection at one book while the
catalog count reaches 2 — exceeding the single distinct reader. -/
theorem addBookToUser_reread_counts_events_witness :
    ∃ s' u',
      (TomeRater.mk [("alice@mail.com", alice)] [(dune, 1)]).add_book_to_user dune
          "alice@mail.com" none = Except.ok s' ∧
        s'.users.find? (fun p => p.1 == "alice@mail.com") = some ("alice@mail.com", u') ∧
        u'.books.length = alice.books.length ∧
        dictLookup dune u'.books = some none ∧
        countOf dune s'.books =
          countOf dune (TomeRater.mk [("alice@mail.com", alice)] [(dune, 1)]).books + 1 :=
  addBookToUser_reread_counts_events _ "alice@mail.com" alice dune (by decide) rfl
    ⟨(dune, none), by decide⟩

/-- Flattening singleton lists recovers the original list. -/
theorem flatten_map_singleton (l : List Char) :
    (l.map (fun c => [c])).flatten = l := by
  induction l <;> simp [*]

/-- The character-class regex matches exactly the one-character strings
drawn from the class. -/
theorem rmatch_charCls (cs : List Char) (x : List Char) :
    (charCls cs).rmatch x = true ↔ ∃ c ∈ cs, x = [c] := by
  induction cs with
  | nil => simp [charCls, RegularExpression.zero_rmatch]
  | cons c t ih =>
    have hfold : charCls (c :: t) = RegularExpression.char c + charCls t := rfl
    rw [hfold, RegularExpression.add_rmatch_iff, RegularExpression.char_rmatch_iff, ih]
    constructor
    · rintro (rfl | ⟨d, hd, rfl⟩)
      · exact ⟨c, by simp⟩
      · exact ⟨d, by simp [hd]⟩
    · rintro ⟨d, hd, rfl⟩
      rcases List.mem_cons.mp hd with rfl | hd
      · exact Or.inl rfl
      · exact Or.inr ⟨d, hd, rfl⟩

/-- `X+` over a character class matches exactly the nonempty strings
drawn from the class. -/
theorem rmatch_rePlus_charCls (cs : List Char) (x : List Char) :
    (rePlus (charCls cs)).rmatch x = true ↔ x ≠ [] ∧ ∀ c ∈ x, c ∈ cs := by
  unfold rePlus
  rw [RegularExpression.mul_rmatch_iff]
  constructor
  · rintro ⟨t, u, rfl, ht, hu⟩
    rw [RegularExpression.star_rmatch_iff] at hu
    rcases hu with ⟨S, rfl, hS⟩
    rcases (rmatch_charCls cs t).mp ht with ⟨c, hc, rfl⟩
    refine ⟨by simp, ?_⟩
    intro d hd
    rcases (show d = c ∨ ∃ y ∈ S, d ∈ y by simpa using hd) with rfl | ⟨y, hy, hdy⟩
    · exact hc
    · rcases (rmatch_charCls cs y).mp (hS y hy).2 with ⟨c', hc', rfl⟩
      rcases List.mem_singleton.mp hdy with rfl
      exact hc'
  · rintro ⟨hne, hall⟩
    rcases x with _ | ⟨c, rest⟩
    · exact absurd rfl hne
    · refine ⟨[c], rest, rfl, ?_, ?_⟩
      · exact (rmatch_charCls cs [c]).mpr ⟨c, hall c (by simp), rfl⟩
      · rw [RegularExpression.star_rmatch_iff]
        refine ⟨rest.map (fun d => [d]), (flatten_map_singleton rest).symm, ?_⟩
        intro y hy
        rcases List.mem_map.mp hy with ⟨d, hd, rfl⟩
        exact ⟨by simp, (rmatch_charCls cs [d]).mpr ⟨d, hall d (by simp [hd]), rfl⟩⟩

/-- `joinSep` of a head part and further parts, through the
separator-prefixed tails. -/
theorem joinSep_cons (sep : Char) (p : List Char) (ps : List (List Char)) :
    joinSep sep (p :: ps) = p ++ (ps.map (fun s => sep :: s)).flatten := by
  induction ps generalizing p with
  | nil => simp [joinSep]
  | cons q qs ih =>
    show p ++ sep :: joinSep sep (q :: qs) = _
    rw [ih q]
    simp

/-- Segments extracted from a star of `\.X+` blocks. -/
theorem exists_segs_of_blocks (cs : List Char) :
    ∀ S : List (List Char),
      (∀ y ∈ S, y ≠ [] ∧
        (RegularExpression.char '.' * rePlus (charCls cs)).rmatch y = true) →
      ∃ ss : List (List Char), S = ss.map (fun s => '.' :: s) ∧
        ∀ s ∈ ss, s ≠ [] ∧ ∀ c ∈ s, c ∈ cs
  | [], _ => ⟨[], rfl, by simp⟩
  | y :: S, h => by
    obtain ⟨hy, hmatch⟩ := h y (by simp)
    rw [RegularExpression.mul_rmatch_iff] at hmatch
    rcases hmatch with ⟨t, u, rfl, ht, hu⟩
    rw [RegularExpression.char_rmatch_iff] at ht
    subst ht
    rcases (rmatch_rePlus_charCls cs u).mp hu with ⟨hune, huall⟩
    rcases exists_segs_of_blocks cs S (fun z hz => h z (by simp [hz])) with ⟨ss, rfl, hss⟩
    refine ⟨u :: ss, by simp, ?_⟩
    intro s hs
    rcases List.mem_cons.mp hs with rfl | hs
    · exact ⟨hune, huall⟩
    · exact hss s hs

/-- The dotted-segments regex `X+(\.X+)*` matches exactly the
`joinSep`-joined nonempty lists of nonempty segments over the class. -/
theorem rmatch_dottedRe (cs : List Char) (x : List Char) :
    (dottedRe cs).rmatch x = true ↔
      ∃ parts : List (List Char), parts ≠ [] ∧
        (∀ p ∈ parts, p ≠ [] ∧ ∀ c ∈ p, c ∈ cs) ∧ x = joinSep '.' parts := by
  unfold dottedRe
  rw [RegularExpression.mul_rmatch_iff]
  constructor
  · rintro ⟨t, u, rfl, ht, hu⟩
    rcases (rmatch_rePlus_charCls cs t).mp ht with ⟨htne, htall⟩
    rw [RegularExpression.star_rmatch_iff] at hu
    rcases hu with ⟨S, rfl, hS⟩
    rcases exists_segs_of_blocks cs S hS with ⟨ss, rfl, hss⟩
    refine ⟨t :: ss, by simp, ?_, ?_⟩
    · intro p hp
      rcases List.mem_cons.mp hp with rfl | hp
      · exact ⟨htne, htall⟩
      · exact hss p hp
    · rw [joinSep_cons]
  · rintro ⟨parts, hne, hsegs, rfl⟩
    rcases parts with _ | ⟨p0, ps⟩
    · exact absurd rfl hne
    · rw [joinSep_cons]
      refine ⟨p0, (ps.map (fun s => '.' :: s)).flatten, rfl, ?_, ?_⟩
      · exact (rmatch_rePlus_charCls cs p0).mpr
          ⟨(hsegs p0 (by simp)).1, (hsegs p0 (by simp)).2⟩
      · rw [RegularExpression.star_rmatch_iff]
        refine ⟨ps.map (fun s => '.' :: s), rfl, ?_⟩
        intro y hy
        rcases List.mem_map.mp hy with ⟨s, hs, rfl⟩
        refine ⟨by simp, ?_⟩
        rw [RegularExpression.mul_rmatch_iff]
        refine ⟨['.'], s, rfl, ?_, ?_⟩
        · rw [RegularExpression.char_rmatch_iff]
        · exact (rmatch_rePlus_charCls cs s).mpr
            ⟨(hsegs s (by simp [hs])).1, (hsegs s (by simp [hs])).2⟩

/-- `(1 + X)` for a character class: the empty string or a single class
character. -/
theorem rmatch_optCharCls (cs : List Char) (x : List Char) :
    ((1 : RegularExpression Char) + charCls cs).rmatch x = true ↔
      x = [] ∨ ∃ c ∈ cs, x = [c] := by
  rw [RegularExpression.add_rmatch_iff, rmatch_charCls]
  constructor
  · rintro (h | h)
    · exact Or.inl ((RegularExpression.one_rmatch_iff x).mp h)
    · exact Or.inr h
  · rintro (rfl | h)
    · exact Or.inl ((RegularExpression.one_rmatch_iff []).mpr rfl)
    · exact Or.inr h

/-- `[a-z]{2,4}`: exactly the 2–4 character strings over the TLD class. -/
theorem rmatch_tldRe (x : List Char) :
    tldRe.rmatch x = true ↔
      2 ≤ x.length ∧ x.length ≤ 4 ∧ ∀ c ∈ x, c ∈ tldChars := by
  unfold tldRe
  rw [RegularExpression.mul_rmatch_iff]
  constructor
  · rintro ⟨t, o2, rfl, h1, ho2⟩
    rw [RegularExpression.mul_rmatch_iff] at h1
    rcases h1 with ⟨t1, o1, rfl, h2, ho1⟩
    rw [RegularExpression.mul_rmatch_iff] at h2
    rcases h2 with ⟨c1s, c2s, rfl, hc1, hc2⟩
    rcases (rmatch_charCls _ _).mp hc1 with ⟨c1, hc1m, rfl⟩
    rcases (rmatch_charCls _ _).mp hc2 with ⟨c2, hc2m, rfl⟩
    rcases (rmatch_optCharCls _ _).mp ho1 with rfl | ⟨c3, hc3m, rfl⟩ <;>
      rcases (rmatch_optCharCls _ _).mp ho2 with rfl | ⟨c4, hc4m, rfl⟩
    · refine ⟨by simp, by simp, ?_⟩
      intro d hd
      rcases (show d = c1 ∨ d = c2 by simpa using hd) with rfl | rfl
      · exact hc1m
      · exact hc2m
    · refine ⟨by simp, by simp, ?_⟩
      intro d hd
      rcases (show d = c1 ∨ d = c2 ∨ d = c4 by simpa using hd) with rfl | rfl | rfl
      · exact hc1m
      · exact hc2m
      · exact hc4m
    · refine ⟨by simp, by simp, ?_⟩
      intro d hd
      rcases (show d = c1 ∨ d = c2 ∨ d = c3 by simpa using hd) with rfl | rfl | rfl
      · exact hc1m
      · exact hc2m
      · exact hc3m
    · refine ⟨by simp, by simp, ?_⟩
      intro d hd
      rcases (show d = c1 ∨ d = c2 ∨ d = c3 ∨ d = c4 by simpa using hd)
        with rfl | rfl | rfl | rfl
      · exact hc1m
      · exact hc2m
      · exact hc3m
      · exact hc4m
  · rintro ⟨h2, h4, hall⟩
    rcases x with _ | ⟨c1, _ | ⟨c2, _ | ⟨c3, _ | ⟨c4, rest⟩⟩⟩⟩
    · simp at h2
    · simp at h2
    · refine ⟨[c1, c2], [], by simp, ?_, (rmatch_optCharCls _ _).mpr (Or.inl rfl)⟩
      rw [RegularExpression.mul_rmatch_iff]
      refine ⟨[c1, c2], [], by simp, ?_, (rmatch_optCharCls _ _).mpr (Or.inl rfl)⟩
      rw [RegularExpression.mul_rmatch_iff]
      exact ⟨[c1], [c2], rfl, (rmatch_charCls _ _).mpr ⟨c1, hall c1 (by simp), rfl⟩,
        (rmatch_charCls _ _).mpr ⟨c2, hall c2 (by simp), rfl⟩⟩
    · refine ⟨[c1, c2, c3], [], by simp, ?_, (rmatch_optCharCls _ _).mpr (Or.inl rfl)⟩
      rw [RegularExpression.mul_rmatch_iff]
      refine ⟨[c1, c2], [c3], rfl, ?_, ?_⟩
      · rw [RegularExpression.mul_rmatch_iff]
        exact ⟨[c1], [c2], rfl, (rmatch_charCls _ _).mpr ⟨c1, hall c1 (by simp), rfl⟩,
          (rmatch_charCls _ _).mpr ⟨c2, hall c2 (by simp), rfl⟩⟩
      · exact (rmatch_optCharCls _ _).mpr (Or.inr ⟨c3, hall c3 (by simp), rfl⟩)
    · have hrest : rest = [] := by
        rcases rest with _ | _
        · rfl
        · simp at h4
      subst hrest
      refine ⟨[c1, c2, c3], [c4], rfl, ?_,
        (rmatch_optCharCls _ _).mpr (Or.inr ⟨c4, hall c4 (by simp), rfl⟩)⟩
      rw [RegularExpression.mul_rmatch_iff]
      refine ⟨[c1, c2], [c3], rfl, ?_, ?_⟩
      · rw [RegularExpression.mul_rmatch_iff]
        exact ⟨[c1], [c2], rfl, (rmatch_charCls _ _).mpr ⟨c1, hall c1 (by simp), rfl⟩,
          (rmatch_charCls _ _).mpr ⟨c2, hall c2 (by simp), rfl⟩⟩
      · exact (rmatch_optCharCls _ _).mpr (Or.inr ⟨c3, hall c3 (by simp), rfl⟩)

/-- The core (anchor-free) email pattern matches exactly the strings of
the spec's structural shape `local@domain.tld`. -/
theorem rmatch_emailCoreRe (x : List Char) :
    emailCoreRe.rmatch x = true ↔ emailSpecStructure x := by
  unfold emailCoreRe emailSpecStructure
  rw [RegularExpression.mul_rmatch_iff]
  constructor
  · rintro ⟨t, u, rfl, ht, hu⟩
    rw [RegularExpression.mul_rmatch_iff] at ht
    rcases ht with ⟨t1, d, rfl, ht1, hd⟩
    rw [RegularExpression.mul_rmatch_iff] at ht1
    rcases ht1 with ⟨l, amark, rfl, hl, hat⟩
    rw [RegularExpression.char_rmatch_iff] at hat
    subst hat
    rw [RegularExpression.mul_rmatch_iff] at hu
    rcases hu with ⟨dot, tl, rfl, hdot, htl⟩
    rw [RegularExpression.char_rmatch_iff] at hdot
    subst hdot
    rcases (rmatch_dottedRe localChars l).mp hl with ⟨lsegs, hlne, hlsegs, rfl⟩
    rcases (rmatch_dottedRe domainChars d).mp hd with ⟨dsegs, hdne, hdsegs, rfl⟩
    rcases (rmatch_tldRe tl).mp htl with ⟨h2, h4, htlall⟩
    refine ⟨lsegs, dsegs, tl, hlne, hlsegs, hdne, hdsegs, h2, h4, htlall, ?_⟩
    simp [List.append_assoc]
  · rintro ⟨lsegs, dsegs, tl, hlne, hlsegs, hdne, hdsegs, h2, h4, htlall, rfl⟩
    refine ⟨(joinSep '.' lsegs ++ ['@']) ++ joinSep '.' dsegs, ['.'] ++ tl,
      by simp [List.append_assoc], ?_, ?_⟩
    · rw [RegularExpression.mul_rmatch_iff]
      refine ⟨joinSep '.' lsegs ++ ['@'], joinSep '.' dsegs, rfl, ?_, ?_⟩
      · rw [RegularExpression.mul_rmatch_iff]
        refine ⟨joinSep '.' lsegs, ['@'], rfl, ?_, ?_⟩
        · exact (rmatch_dottedRe _ _).mpr ⟨lsegs, hlne, hlsegs, rfl⟩
        · rw [RegularExpression.char_rmatch_iff]
      · exact (rmatch_dottedRe _ _).mpr ⟨dsegs, hdne, hdsegs, rfl⟩
    · rw [RegularExpression.mul_rmatch_iff]
      refine ⟨['.'], tl, rfl, ?_, (rmatch_tldRe tl).mpr ⟨h2, h4, htlall⟩⟩
      rw [RegularExpression.char_rmatch_iff]

/-- C7 (amended): `check_email_is_valid` accepts exactly the
*case-sensitive* (lowercase classes, as literally written in the regex)
addresses of the spec's shape — dotted `[_a-z0-9-]` local segments,
`'@'`, dotted `[a-z0-9-]` domain segments and a terminal 2–4 letter TLD
segment — plus, as an artefact of Python's `$` anchor, exactly those
same addresses followed by a single trailing newline.  It is *not*
case-insensitive (no `re.IGNORECASE` flag is passed); see the
counterexample. -/
theorem checkEmail_accepts_exactly_spec_pattern (email : String) :
    User.check_email_is_valid email = true ↔
      (emailSpecStructure email.toList ∨
        ∃ y, emailSpecStructure y ∧ email.toList = y ++ ['\n']) := by
  unfold User.check_email_is_valid emailRe
  rw [RegularExpression.mul_rmatch_iff]
  constructor
  · rintro ⟨t, u, hx, ht, hu⟩
    rw [RegularExpression.add_rmatch_iff, RegularExpression.one_rmatch_iff,
      RegularExpression.char_rmatch_iff] at hu
    rcases hu with rfl | rfl
    · rw [List.append_nil] at hx
      rw [hx]
      exact Or.inl ((rmatch_emailCoreRe t).mp ht)
    · exact Or.inr ⟨t, (rmatch_emailCoreRe t).mp ht, hx⟩
  · rintro (hs | ⟨y, hy, hx⟩)
    · refine ⟨email.toList, [], by simp, (rmatch_emailCoreRe _).mpr hs, ?_⟩
      rw [RegularExpression.add_rmatch_iff, RegularExpression.one_rmatch_iff]
      exact Or.inl rfl
    · refine ⟨y, ['\n'], hx, (rmatch_emailCoreRe _).mpr hy, ?_⟩
      rw [RegularExpression.add_rmatch_iff, RegularExpression.char_rmatch_iff]
      exact Or.inr rfl

/-- Counterexample to C7 as stated: the check is *case-sensitive* — the
lowercase address is accepted while the address differing from it only
in letter case is rejected — and it additionally accepts a
trailing-newline variant not described by the pattern. -/
theorem checkEmail_case_sensitive_counterexample :
    User.check_email_is_valid "a@b.co" = true ∧
      User.check_email_is_valid "A@B.CO" = false ∧
      User.check_email_is_valid "a@b.co\n" = true :=
  ⟨by decide, by decide, by decide⟩
